import Mathlib

/- Verification development for the tinker knowledge pipeline.

   The definitions below are a shallow embedding of the ingestion and
   backfill code in tools/import-knowledge.py and tools/embed-knowledge.py.
   Text is modelled as a list of characters; the Python string primitives
   used by the code (split on a separator, strip, replace, slicing) are
   translated pointwise, specialised to the separators the code uses.
   Database state is modelled as explicit lists of rows, and the SQL
   statements, triggers and the foreign-key cascade of the schema are
   translated to list operations on that state.  File reads, JSON parsing
   and the external embedding capability are inputs to the model. -/

set_option maxRecDepth 200000

namespace Tinker

abbrev Text := List Char

/-- Python str.strip default whitespace set (the ASCII part, which is all
the chunker-relevant inputs contain). -/
def pySpace (c : Char) : Bool :=
  c == ' ' || c == '\t' || c == '\n' || c == '\r' || c == '\x0b' || c == '\x0c'

/-- Python p.strip(): drop leading and trailing whitespace. -/
def trimText (t : Text) : Text :=
  ((t.dropWhile pySpace).reverse.dropWhile pySpace).reverse

/-- Python text.split for the two-character separator of a blank line:
leftmost, non-overlapping occurrences. -/
def splitParas : Text → List Text
  | '\n' :: '\n' :: rest => [] :: splitParas rest
  | c :: rest =>
    match splitParas rest with
    | [] => [[c]]
    | p :: ps => (c :: p) :: ps
  | [] => [[]]

/-- Python s.split for a single newline separator. -/
def splitLines : Text → List Text
  | '\n' :: rest => [] :: splitLines rest
  | c :: rest =>
    match splitLines rest with
    | [] => [[c]]
    | p :: ps => (c :: p) :: ps
  | [] => [[]]

/-- Python para.replace of a dot-space pair by a dot-newline pair:
leftmost, non-overlapping occurrences. -/
def replaceDotSpace : Text → Text
  | '.' :: ' ' :: rest => '.' :: '\n' :: replaceDotSpace rest
  | c :: rest => c :: replaceDotSpace rest
  | [] => []

/-- chunk_text step 1: split on blank lines, strip, drop empties
(import-knowledge.py line 104). -/
def paragraphs (text : Text) : List Text :=
  ((splitParas text).map trimText).filter (fun p => !p.isEmpty)

/-- The sentence-like units of a long paragraph
(import-knowledge.py line 114). -/
def sentenceUnits (para : Text) : List Text :=
  splitLines (replaceDotSpace para)

/-- The sentence-packing loop over a long paragraph, carrying the sentence
buffer (import-knowledge.py lines 115 to 124, including the final flush). -/
def packLoop : List Text → Text → List Text
  | [], buf => if buf.isEmpty then [] else [buf]
  | s :: rest, buf =>
    if 600 < buf.length + s.length then
      (if buf.isEmpty then [] else [buf]) ++ packLoop rest s
    else
      packLoop rest (if buf.isEmpty then s else buf ++ ' ' :: s)

/-- One iteration of the paragraph loop of chunk_text, carrying the pair of
emitted chunks and the accumulation buffer
(import-knowledge.py lines 108 to 130). -/
def chunkStep (acc : List Text × Text) (para : Text) : List Text × Text :=
  if 800 < para.length then
    ((acc.1 ++ (if acc.2.isEmpty then [] else [acc.2])) ++
       packLoop (sentenceUnits para) [], [])
  else if acc.2.length + para.length < 100 then
    (acc.1, if acc.2.isEmpty then para else acc.2 ++ '\n' :: '\n' :: para)
  else
    (acc.1 ++ (if acc.2.isEmpty then [] else [acc.2]), para)

/-- chunk_text of import-knowledge.py lines 102 to 134. -/
def chunk_text (text : Text) : List Text :=
  let r := (paragraphs text).foldl chunkStep ([], [])
  r.1 ++ (if r.2.isEmpty then [] else [r.2])

/-- The guarantee a fragment of chunk_text enjoys: it is within the
sentence-buffer ceiling as the greedy test enforces it, or it is a whole
paragraph of the input passed through as one fragment, or it is a whole
sentence-like unit of one paragraph passed through as one fragment. -/
def fragWithin (bound : Nat) (text frag : Text) : Prop :=
  frag.length ≤ bound ∨ frag ∈ paragraphs text ∨
    ∃ p ∈ paragraphs text, frag ∈ sentenceUnits p

instance (bound : Nat) (text frag : Text) : Decidable (fragWithin bound text frag) := by
  unfold fragWithin
  infer_instance

/-- A single long paragraph used as a concrete chunker input: 299 letters
and a dot, a space, 299 letters and a dot, a space, 250 letters.  Its
length is 852, above the long-paragraph threshold of 800. -/
def exPara : Text :=
  List.replicate 299 'a' ++ '.' :: ' ' ::
    (List.replicate 299 'b' ++ '.' :: ' ' :: List.replicate 250 'c')

/-- The first fragment chunk_text emits for exPara: two sentence units of
300 characters each, joined by the space the greedy size test does not
count, for a total length of 601. -/
def exFrag : Text :=
  List.replicate 299 'a' ++ '.' :: ' ' :: (List.replicate 299 'b' ++ ['.'])

/- ------------------------------------------------------------------ -/
/- Embedding backfill orchestrator, embed-knowledge.py main (lines 45-96). -/

/-- BATCH_SIZE of embed-knowledge.py line 15. -/
def BATCH_SIZE : Nat := 2000

/-- What one subprocess.run of the worker can come back with, as seen by
the orchestrator loop: the call raises TimeoutExpired after 600 seconds, or
the worker exits non-zero with some stderr, or exits zero with stdout that
fails to parse as JSON, or with a JSON error payload, or with the JSON
success payload of an embedded count and a processed count. -/
inductive WorkerOutcome where
  | timeout : WorkerOutcome
  | crash : String → WorkerOutcome
  | badOutput : String → WorkerOutcome
  | errorPayload : String → WorkerOutcome
  | ok : Nat → Nat → WorkerOutcome
deriving DecidableEq

/-- How one backfill invocation of main ends.  stopped is the normal fall
through to the final report (loop guard false, or a processed count of
zero); the three aborted states are the three break statements; an
uncaught TimeoutExpired terminates main abnormally before any report;
outOfTrace records that the loop asked for one more worker run than the
supplied outcome list contains, with the counts it had at that point. -/
inductive RunResult where
  | stopped : Nat → RunResult
  | abortedRetries : Nat → RunResult
  | abortedProtocol : Nat → RunResult
  | abortedError : Nat → RunResult
  | uncaughtTimeout : Nat → RunResult
  | outOfTrace : Nat → Nat → RunResult
deriving DecidableEq

/-- The while loop of embed-knowledge.py main (lines 59 to 93), run against
a list of worker outcomes.  State: done and retries; the loop runs while
done is below total.  A non-zero exit increments retries and aborts once
retries exceeds 5, otherwise sleeps and redispatches; a zero exit resets
retries, then unparseable stdout or an error payload break out; a
processed count of zero breaks out normally; otherwise done grows by the
embedded count.  A timeout of subprocess.run raises and nothing in main
catches it. -/
def runLoop (total : Nat) : List WorkerOutcome → Nat → Nat → RunResult
  | [], done, retries =>
    if done < total then .outOfTrace done retries else .stopped done
  | o :: rest, done, retries =>
    if done < total then
      match o with
      | .timeout => .uncaughtTimeout done
      | .crash _ =>
        if 5 < retries + 1 then .abortedRetries done
        else runLoop total rest done (retries + 1)
      | .badOutput _ => .abortedProtocol done
      | .errorPayload _ => .abortedError done
      | .ok e p =>
        if p = 0 then .stopped done
        else runLoop total rest (done + e) 0
    else .stopped done

/-- Outcome list produced by workers that always succeed and embed every
chunk they process: each run reports embedded equal to processed equal to
the lesser of BATCH_SIZE and the remaining count, until nothing remains or
the fuel runs out. -/
def goodTrace (total : Nat) : Nat → Nat → List WorkerOutcome
  | _, 0 => []
  | done, fuel + 1 =>
    if done < total then
      .ok (min BATCH_SIZE (total - done)) (min BATCH_SIZE (total - done)) ::
        goodTrace total (done + min BATCH_SIZE (total - done)) fuel
    else []

/- ------------------------------------------------------------------ -/
/- The worker, embed-knowledge.py WORKER_SCRIPT (lines 17-42). -/

/-- One row of the chunks table.  rowid is the SQLite integer row
identity the full-text index is keyed by; id models the TEXT primary key
(the uuid of import-knowledge.py, as an opaque number); the float payload
of the vector blob is modelled as a list of integers, the packing to
bytes being a bijection the claims never look inside. -/
structure ChunkRow where
  rowid : Nat
  id : Nat
  document_id : Nat
  text : Text
  vector : Option (List Int)
deriving DecidableEq

/-- The string the worker hands the embedding capability for a chunk:
text[:512] at WORKER_SCRIPT line 33. -/
def submitted (t : Text) : Text := t.take 512

/-- The worker guard of WORKER_SCRIPT lines 33 and 34 around one chunk:
call the capability on the first 512 characters; keep the vector only if
the call produced one and its length equals the model dimension. -/
def embedOutcome (embed : Text → Option (List Int)) (dim : Nat) (t : Text) :
    Option (List Int) :=
  match embed (submitted t) with
  | some v => if v.length = dim then some v else none
  | none => none

/-- SELECT id, text FROM chunks WHERE vector IS NULL LIMIT n
(WORKER_SCRIPT line 29). -/
def selectUnembedded (db : List ChunkRow) (limit : Nat) : List ChunkRow :=
  (db.filter (fun c => c.vector.isNone)).take limit

/-- UPDATE chunks SET vector = blob WHERE id = cid (WORKER_SCRIPT line 36). -/
def writeVector (db : List ChunkRow) (cid : Nat) (v : List Int) :
    List ChunkRow :=
  db.map (fun c => if c.id = cid then { c with vector := some v } else c)

/-- The per-chunk loop of WORKER_SCRIPT lines 31 to 37, carrying the
database and the embedded count. -/
def workerLoop (embed : Text → Option (List Int)) (dim : Nat) :
    List ChunkRow → List ChunkRow × Nat → List ChunkRow × Nat
  | [], acc => acc
  | c :: rest, acc =>
    match embedOutcome embed dim c.text with
    | some v => workerLoop embed dim rest (writeVector acc.1 c.id v, acc.2 + 1)
    | none => workerLoop embed dim rest acc

/-- One whole worker batch after a successful model load: the selected
rows, the updated database, and the pair of counts the worker prints as
its success payload (embedded, processed). -/
def workerRun (embed : Text → Option (List Int)) (dim : Nat)
    (db : List ChunkRow) (limit : Nat) : List ChunkRow × Nat × Nat :=
  let rows := selectUnembedded db limit
  let r := workerLoop embed dim rows (db, 0)
  (r.1, r.2, rows.length)

/-- The single structured line the worker prints before exiting. -/
inductive WorkerReport where
  | ok : Nat → Nat → WorkerReport
  | error : String → WorkerReport
deriving DecidableEq

/-- Whether a worker report is the error payload shape. -/
def WorkerReport.isError : WorkerReport → Bool
  | .error _ => true
  | _ => false

/-- WORKER_SCRIPT end to end: a failed model load prints the error payload
and exits non-zero without touching the database; otherwise the batch runs
and the success payload is printed (lines 22-26 and 41). -/
def workerMain (loadOk : Bool) (loadErr : String)
    (embed : Text → Option (List Int)) (dim : Nat)
    (db : List ChunkRow) (limit : Nat) : List ChunkRow × WorkerReport :=
  if loadOk then
    let r := workerRun embed dim db limit
    (r.1, .ok r.2.1 r.2.2)
  else (db, .error loadErr)

/-- Where a chunk row of the database a worker batch leaves behind can
come from: it is an untouched input row, or an input row whose vector
column alone was set, to exactly the vector the embedding capability
returned for the first 512 characters of its text, of exactly the model
dimension — never truncated and never padded. -/
def rowProvenance (embed : Text → Option (List Int)) (dim : Nat)
    (db : List ChunkRow) (c' : ChunkRow) : Prop :=
  ∃ c ∈ db, c'.text = c.text ∧ c'.id = c.id ∧
    (c' = c ∨ ∃ v, c' = { c with vector := some v } ∧ v.length = dim ∧
      embed (submitted c.text) = some v)

/-- A concrete unembedded chunk row. -/
def exChunk : ChunkRow := ⟨1, 1, 1, "hi".data, none⟩

/-- A concrete embedding capability that always yields a vector of length
three, the wrong dimensionality when the model dimension is five. -/
def exBadEmbed : Text → Option (List Int) := fun _ => some [0, 0, 0]

/-- Concrete texts agreeing on their first 512 characters and differing
beyond them. -/
def exText1 : Text := List.replicate 512 'x' ++ ['a']

/-- Concrete texts agreeing on their first 512 characters and differing
beyond them. -/
def exText2 : Text := List.replicate 512 'x' ++ ['b']

/-- A concrete embedding capability of dimension two. -/
def exEmbed : Text → Option (List Int) := fun _ => some [3, 4]

/- ------------------------------------------------------------------ -/
/- The store schema of import-knowledge.py init_db (lines 28-60). -/

/-- One row of the documents table.  The import and modification dates are
not read by any of the verified properties and are omitted from the row
model; the uuid primary key is modelled as an opaque number. -/
structure DocRow where
  id : Nat
  filename : String
  source_type : String
  source_path : Option String
deriving DecidableEq

/-- One row of the chunks_fts full-text index, keyed by the rowid of the
chunks row it mirrors (content_rowid of init_db line 50). -/
structure FtsRow where
  rowid : Nat
  text : Text
deriving DecidableEq

/-- The persisted store: documents, chunks, the full-text index, and the
next free rowid (SQLite allocates fresh rowids above every live one). -/
structure KB where
  documents : List DocRow
  chunks : List ChunkRow
  fts : List FtsRow
  nextRowid : Nat
deriving DecidableEq

/-- The index entry the chunks_ai trigger derives from a chunk row
(init_db lines 52-54). -/
def ftsEntry (c : ChunkRow) : FtsRow := ⟨c.rowid, c.text⟩

/-- insert_chunks (import-knowledge.py lines 145-149) under the schema:
each inserted chunk row fires the chunks_ai trigger, which inserts the
matching full-text row.  The uuid chunk id is modelled by the fresh rowid. -/
def insertChunksKB (kb : KB) (docId : Nat) (texts : List Text) : KB :=
  texts.foldl
    (fun kb t =>
      { kb with
        chunks := kb.chunks ++ [⟨kb.nextRowid, kb.nextRowid, docId, t, none⟩],
        fts := kb.fts ++ [⟨kb.nextRowid, t⟩],
        nextRowid := kb.nextRowid + 1 })
    kb

/-- One committed import unit: insert_document followed by insert_chunks
(import-knowledge.py lines 137-149). -/
def insertDocKB (kb : KB) (doc : DocRow) (texts : List Text) : KB :=
  insertChunksKB { kb with documents := kb.documents ++ [doc] } doc.id texts

/-- DELETE FROM documents WHERE id = docId under the schema of init_db:
with foreign keys on, ON DELETE CASCADE removes the chunks of the
document, and each removed chunk row fires the chunks_ad trigger, which
removes the full-text row carrying its rowid (lines 44 and 55-57). -/
def deleteDocKB (kb : KB) (docId : Nat) : KB :=
  let removed := kb.chunks.filter (fun c => c.document_id == docId)
  { documents := kb.documents.filter (fun d => !(d.id == docId)),
    chunks := kb.chunks.filter (fun c => !(c.document_id == docId)),
    fts := kb.fts.filter (fun f => !(removed.any (fun c => c.rowid == f.rowid))),
    nextRowid := kb.nextRowid }

/-- The full-text index mirrors the chunk rows exactly, entry for row. -/
def ftsConsistent (kb : KB) : Prop :=
  kb.fts = kb.chunks.map ftsEntry

/-- Chunk rowids are pairwise distinct and below the allocation mark. -/
def rowidsOk (kb : KB) : Prop :=
  (kb.chunks.map ChunkRow.rowid).Nodup ∧ ∀ c ∈ kb.chunks, c.rowid < kb.nextRowid

instance (kb : KB) : Decidable (ftsConsistent kb) := by
  unfold ftsConsistent
  infer_instance

instance (kb : KB) : Decidable (rowidsOk kb) := by
  unfold rowidsOk
  infer_instance

/-- A concrete store holding two documents of one chunk each. -/
def exKB : KB :=
  insertDocKB
    (insertDocKB ⟨[], [], [], 0⟩ ⟨1, "a.md", "file", none⟩ ["one".data])
    ⟨2, "b.md", "file", none⟩ ["two".data]

/-- The chunk of document 1 inside exKB. -/
def exKBChunk : ChunkRow := ⟨0, 0, 1, "one".data, none⟩

/-- The full-text row of the chunk of document 2 inside exKB. -/
def exKBFts : FtsRow := ⟨1, "two".data⟩

/- ------------------------------------------------------------------ -/
/- The importer entry points of import-knowledge.py. -/

/-- The two roles the extractors tag blocks with. -/
inductive Role where
  | human : Role
  | assistant : Role
deriving DecidableEq

/-- One extracted role-tagged message. -/
structure Msg where
  role : Role
  text : Text
deriving DecidableEq

/-- The role word written into a transcript block. -/
def roleTag : Role → Text
  | .human => "Human".data
  | .assistant => "Assistant".data

/-- One transcript block, the f-string of lines 196 and 235: an opening
bracket, the role word, a closing bracket, a newline, the message text. -/
def roleBlock (m : Msg) : Text :=
  '[' :: (roleTag m.role ++ ']' :: '\n' :: m.text)

/-- The blank-line join of transcript blocks. -/
def joinBlocks : List Text → Text
  | [] => []
  | [b] => b
  | b :: rest => b ++ '\n' :: '\n' :: joinBlocks rest

/-- The logical document text an importer builds from extracted messages. -/
def transcriptOf (msgs : List Msg) : Text :=
  joinBlocks (msgs.map roleBlock)

/-- MIN_HUMAN_MESSAGES of import-knowledge.py line 25. -/
def MIN_HUMAN_MESSAGES : Nat := 5

/-- MAX_FILE_SIZE of import-knowledge.py line 26. -/
def MAX_FILE_SIZE : Nat := 50000000

/-- The count of human messages an extraction produced. -/
def humanCount (msgs : List Msg) : Nat :=
  (msgs.filter (fun m => m.role == Role.human)).length

/-- SELECT source_path FROM documents WHERE source_path IS NOT NULL
(existing_source_paths, lines 63-65). -/
def existingSourcePaths (db : List DocRow) : List String :=
  db.filterMap DocRow.source_path

/-- How many documents record a given source path. -/
def countPath (db : List DocRow) (p : String) : Nat :=
  (db.filter (fun d => d.source_path == some p)).length

/-- One conversation of a Claude.ai export file, already parsed: its name
and its sender-tagged messages. -/
structure Conv where
  name : String
  chat_messages : List Msg
deriving DecidableEq

/-- The eligibility filter of import_claude_ai lines 227-228. -/
def eligibleConv (c : Conv) : Bool :=
  decide (MIN_HUMAN_MESSAGES ≤ humanCount c.chat_messages)

/-- The transcript import_claude_ai builds at lines 234-237. -/
def convTranscript (c : Conv) : Text := transcriptOf c.chat_messages

/-- The body of the conversation loop of import_claude_ai lines 233-246:
conversations chunking to nothing are passed over, every other one gets a
fresh document whose source_path column is left NULL (insert_document is
called without a source path argument). -/
def aiStep (acc : List DocRow × Nat) (conv : Conv) : List DocRow × Nat :=
  if (chunk_text (convTranscript conv)).isEmpty then acc
  else
    (acc.1 ++ [⟨acc.2, "claude.ai: " ++ conv.name, "claude_ai", none⟩],
      acc.2 + 1)

/-- import_claude_ai (lines 223-252) over parsed conversations, with the
uuid generator modelled as a counter of fresh ids. -/
def importClaudeAI (db : List DocRow) (nextId : Nat) (convs : List Conv) :
    List DocRow × Nat :=
  (convs.filter eligibleConv).foldl aiStep (db, nextId)

/-- The number of conversations one import_claude_ai run inserts: those
eligible and chunking to at least one fragment. -/
def importedAiCount (convs : List Conv) : Nat :=
  ((convs.filter eligibleConv).filter
    (fun c => !(chunk_text (convTranscript c)).isEmpty)).length

/-- One transcript file as import_claude_code sees it: its path, its size,
whether stat and parse succeeded, and the messages parse_cc_jsonl
extracted. -/
structure CCFile where
  path : String
  size : Nat
  readOk : Bool
  parseOk : Bool
  messages : List Msg
deriving DecidableEq

/-- The per-file guards of import_claude_code lines 170-199: a file is
imported unless stat fails, the size guard trips, parsing raises, the
human-message minimum is missed, or chunking yields nothing. -/
def ccImportable (f : CCFile) : Bool :=
  f.readOk && decide (f.size ≤ MAX_FILE_SIZE) && f.parseOk &&
    decide (MIN_HUMAN_MESSAGES ≤ humanCount f.messages) &&
    !(chunk_text (transcriptOf f.messages)).isEmpty

/-- The display name of an imported transcript; the project-directory and
session-stem munging of lines 202-204 is abstracted into the path. -/
def ccDisplayName (p : String) : String := "claude-code/" ++ p

/-- The body of the file loop of import_claude_code lines 170-211: an
importable file gets a fresh document recording its path as source_path. -/
def ccStep (acc : List DocRow × Nat) (f : CCFile) : List DocRow × Nat :=
  if ccImportable f then
    (acc.1 ++ [⟨acc.2, ccDisplayName f.path, "claude_code", some f.path⟩],
      acc.2 + 1)
  else acc

/-- import_claude_code (lines 152-220): the dedup filter of lines 159-160
drops every file whose path is already recorded, then the rest are
processed in order. -/
def importClaudeCode (db : List DocRow) (nextId : Nat) (files : List CCFile) :
    List DocRow × Nat :=
  (files.filter (fun f => !((existingSourcePaths db).contains f.path))).foldl
    ccStep (db, nextId)

/-- Python Path(p).name: the last path component. -/
def fileBaseName (p : String) : String := (p.splitOn "/").getLastD ""

/-- import_file (lines 255-267): chunk the content; if anything came out,
insert one fresh document recording the path as source_path.  No dedup
lookup is made. -/
def importFile (db : List DocRow) (nextId : Nat) (path : String)
    (content : Text) : List DocRow × Nat :=
  if (chunk_text content).isEmpty then (db, nextId)
  else (db ++ [⟨nextId, fileBaseName path, "file", some path⟩], nextId + 1)

/-- Five human messages, enough to pass the minimum-signal filter. -/
def exMsgs : List Msg := List.replicate 5 ⟨Role.human, "hello".data⟩

/-- A concrete transcript file passing every import guard. -/
def exCCFile : CCFile := ⟨"p.jsonl", 10, true, true, exMsgs⟩

/-- A concrete eligible conversation. -/
def exConv : Conv := ⟨"t", exMsgs⟩

/-- The document importing exConv inserts first. -/
def exAiDoc : DocRow := ⟨0, "claude.ai: t", "claude_ai", none⟩

/-- A concrete non-empty file content. -/
def exContent : Text := "hello".data

/- ================================================================== -/
/- Theorems.                                                           -/
/- ================================================================== -/

/- Chunker lemmas. -/

theorem packLoop_mem (sents : List Text) : ∀ buf frag : Text,
    frag ∈ packLoop sents buf →
    frag.length ≤ 601 ∨ frag = buf ∨ frag ∈ sents := by
  induction sents with
  | nil =>
    intro buf frag hf
    simp only [packLoop] at hf
    by_cases hb : buf.isEmpty = true
    · rw [if_pos hb] at hf
      exact absurd hf (List.not_mem_nil frag)
    · rw [if_neg hb] at hf
      exact Or.inr (Or.inl (List.mem_singleton.mp hf))
  | cons s rest ih =>
    intro buf frag hf
    simp only [packLoop] at hf
    by_cases hlen : 600 < buf.length + s.length
    · rw [if_pos hlen] at hf
      rcases List.mem_append.mp hf with h1 | h2
      · by_cases hb : buf.isEmpty = true
        · rw [if_pos hb] at h1
          exact absurd h1 (List.not_mem_nil frag)
        · rw [if_neg hb] at h1
          exact Or.inr (Or.inl (List.mem_singleton.mp h1))
      · rcases ih s frag h2 with h | h | h
        · exact Or.inl h
        · rw [h]
          exact Or.inr (Or.inr (List.mem_cons_self s rest))
        · exact Or.inr (Or.inr (List.mem_cons_of_mem s h))
    · rw [if_neg hlen] at hf
      rcases ih _ frag hf with h | h | h
      · exact Or.inl h
      · by_cases hb : buf.isEmpty = true
        · rw [if_pos hb] at h
          rw [h]
          exact Or.inr (Or.inr (List.mem_cons_self s rest))
        · rw [if_neg hb] at h
          subst h
          refine Or.inl ?_
          have h1 : (buf ++ ' ' :: s).length = buf.length + (s.length + 1) := by
            simp
          omega
      · exact Or.inr (Or.inr (List.mem_cons_of_mem s h))

theorem flushBuf_ok (text buf : Text)
    (h2 : buf = [] ∨ buf.length ≤ 601 ∨ buf ∈ paragraphs text) :
    ∀ f ∈ (if buf.isEmpty then ([] : List Text) else [buf]),
      fragWithin 601 text f := by
  intro f hf
  by_cases hb : buf.isEmpty = true
  · rw [if_pos hb] at hf
    exact absurd hf (List.not_mem_nil f)
  · rw [if_neg hb] at hf
    have he : f = buf := List.mem_singleton.mp hf
    subst he
    rcases h2 with h | h | h
    · exact absurd (by simp [h]) hb
    · exact Or.inl h
    · exact Or.inr (Or.inl h)

theorem chunkStep_ok (text : Text) (acc : List Text × Text) (p : Text)
    (hp : p ∈ paragraphs text)
    (h1 : ∀ f ∈ acc.1, fragWithin 601 text f)
    (h2 : acc.2 = [] ∨ acc.2.length ≤ 601 ∨ acc.2 ∈ paragraphs text) :
    (∀ f ∈ (chunkStep acc p).1, fragWithin 601 text f) ∧
    ((chunkStep acc p).2 = [] ∨ (chunkStep acc p).2.length ≤ 601 ∨
      (chunkStep acc p).2 ∈ paragraphs text) := by
  unfold chunkStep
  split
  next hlong =>
    refine ⟨?_, Or.inl rfl⟩
    intro f hf
    rcases List.mem_append.mp hf with h3 | h3
    · rcases List.mem_append.mp h3 with h4 | h4
      · exact h1 f h4
      · exact flushBuf_ok text acc.2 h2 f h4
    · rcases packLoop_mem (sentenceUnits p) [] f h3 with h | h | h
      · exact Or.inl h
      · rw [h]
        exact Or.inl (by simp)
      · exact Or.inr (Or.inr ⟨p, hp, h⟩)
  next hlong =>
    split
    next hsmall =>
      refine ⟨h1, ?_⟩
      by_cases hb : acc.2.isEmpty = true
      · rw [if_pos hb]
        exact Or.inr (Or.inr hp)
      · rw [if_neg hb]
        refine Or.inr (Or.inl ?_)
        show (acc.2 ++ '\n' :: '\n' :: p).length ≤ 601
        have h3 : (acc.2 ++ '\n' :: '\n' :: p).length
            = acc.2.length + (p.length + 2) := by simp
        omega
    next hsmall =>
      refine ⟨?_, Or.inr (Or.inr hp)⟩
      intro f hf
      rcases List.mem_append.mp hf with h3 | h3
      · exact h1 f h3
      · exact flushBuf_ok text acc.2 h2 f h3

theorem chunkFold_ok (text : Text) :
    ∀ (l : List Text) (acc : List Text × Text),
      (∀ p ∈ l, p ∈ paragraphs text) →
      (∀ f ∈ acc.1, fragWithin 601 text f) →
      (acc.2 = [] ∨ acc.2.length ≤ 601 ∨ acc.2 ∈ paragraphs text) →
      (∀ f ∈ (l.foldl chunkStep acc).1, fragWithin 601 text f) ∧
      ((l.foldl chunkStep acc).2 = [] ∨
        (l.foldl chunkStep acc).2.length ≤ 601 ∨
        (l.foldl chunkStep acc).2 ∈ paragraphs text) := by
  intro l
  induction l with
  | nil =>
    intro acc _ h1 h2
    exact ⟨h1, h2⟩
  | cons p rest ih =>
    intro acc hl h1 h2
    have hp : p ∈ paragraphs text := hl p (List.mem_cons_self p rest)
    have hl2 : ∀ q ∈ rest, q ∈ paragraphs text :=
      fun q hq => hl q (List.mem_cons_of_mem p hq)
    rw [List.foldl_cons]
    have hs := chunkStep_ok text acc p hp h1 h2
    exact ih (chunkStep acc p) hl2 hs.1 hs.2

/-- Claim C3 (amended): every fragment chunk_text emits has length at most
601 — the sentence-buffer ceiling of 600 plus the joining space the greedy
size test does not count — except a fragment that is a whole single
paragraph, or a whole single sentence-like unit of one paragraph, passed
through unsplit. -/
theorem chunk_text_within (text frag : Text) (hf : frag ∈ chunk_text text) :
    fragWithin 601 text frag := by
  unfold chunk_text at hf
  have h := chunkFold_ok text (paragraphs text) ([], [])
    (fun p hp => hp) (fun f hf0 => absurd hf0 (List.not_mem_nil f))
    (Or.inl rfl)
  rcases List.mem_append.mp hf with h1 | h1
  · exact h.1 frag h1
  · exact flushBuf_ok text _ h.2 frag h1

/-- Witness for chunk_text_within: the fragment of length 601 the chunker
emits for exPara is covered by the amended bound. -/
theorem chunk_text_within_wit :
    exFrag ∈ chunk_text exPara ∧ fragWithin 601 exPara exFrag :=
  ⟨by decide, chunk_text_within exPara exFrag (by decide)⟩

/-- Claim C3 counterexample: for the single 852-character paragraph
exPara, chunk_text emits a fragment (of length 601, two sentence units
joined by an uncounted space) that exceeds the claimed 600 ceiling yet is
neither a whole paragraph nor a whole sentence-like unit, so the claimed
bound is violated. -/
theorem chunk_ceiling_600_refuted :
    ¬ (∀ frag ∈ chunk_text exPara, fragWithin 600 exPara frag) := by
  decide

/- Orchestrator lemmas. -/

theorem unembeddable_never_stops (k : Nat) (hk : k ≠ 0) :
    ∀ (n total done : Nat), done < total →
      runLoop total (List.replicate n (WorkerOutcome.ok 0 k)) done 0
        = RunResult.outOfTrace done 0 := by
  intro n
  induction n with
  | zero =>
    intro total done hd
    simp [runLoop, hd]
  | succ m ih =>
    intro total done hd
    simp only [List.replicate_succ]
    simp only [runLoop]
    rw [if_pos hd, if_neg hk]
    simpa using ih total done hd

theorem goodTrace_drains : ∀ (fuel total done : Nat), done ≤ total →
    total - done ≤ BATCH_SIZE * fuel →
    runLoop total (goodTrace total done fuel) done 0
      = RunResult.stopped total := by
  intro fuel
  induction fuel with
  | zero =>
    intro total done h1 h2
    have he : done = total := by omega
    subst he
    simp [goodTrace, runLoop]
  | succ m ih =>
    intro total done h1 h2
    by_cases hd : done < total
    · simp only [goodTrace]
      rw [if_pos hd]
      simp only [runLoop]
      rw [if_pos hd]
      have hp : min BATCH_SIZE (total - done) ≠ 0 := by
        unfold BATCH_SIZE
        omega
      rw [if_neg hp]
      apply ih
      · omega
      · unfold BATCH_SIZE at h2 ⊢
        omega
    · have he : done = total := by omega
      subst he
      simp [goodTrace, runLoop]

theorem goodTrace_length : ∀ (fuel total done : Nat),
    (goodTrace total done fuel).length ≤ fuel := by
  intro fuel
  induction fuel with
  | zero =>
    intro total done
    simp [goodTrace]
  | succ m ih =>
    intro total done
    by_cases hd : done < total
    · simp only [goodTrace]
      rw [if_pos hd]
      simpa using ih total (done + min BATCH_SIZE (total - done))
    · simp [goodTrace, hd]

/-- Claim C1 (amended): a worker exceeding the wall-clock timeout is not
handled like a crash.  subprocess.run raises TimeoutExpired, nothing in
main catches it, and the orchestrator terminates abnormally without
incrementing the retry counter and without reaching a terminal state;
only a non-zero exit is counted toward the ceiling and redispatched. -/
theorem timeout_uncaught (rest : List WorkerOutcome) (s : String)
    (total done retries : Nat) (hd : done < total) (hr : retries + 1 ≤ 5) :
    runLoop total (WorkerOutcome.timeout :: rest) done retries
        = RunResult.uncaughtTimeout done ∧
    runLoop total (WorkerOutcome.crash s :: rest) done retries
        = runLoop total rest done (retries + 1) := by
  have hr2 : ¬ (5 < retries + 1) := by omega
  constructor
  · simp only [runLoop]
    rw [if_pos hd]
  · simp only [runLoop]
    rw [if_pos hd, if_neg hr2]

/-- Witness for timeout_uncaught at a concrete state. -/
theorem timeout_uncaught_wit :
    (0 < 10 ∧ 0 + 1 ≤ 5) ∧
    (runLoop 10 [WorkerOutcome.timeout] 0 0 = RunResult.uncaughtTimeout 0 ∧
     runLoop 10 [WorkerOutcome.crash "x"] 0 0 = runLoop 10 [] 0 (0 + 1)) :=
  ⟨⟨by decide, by decide⟩,
    timeout_uncaught [] "x" 10 0 0 (by decide) (by decide)⟩

/-- Claim C1 counterexample: at the concrete state of one pending batch,
a timeout outcome and a crash outcome are handled differently — the
timeout propagates as an uncaught exception while the crash is retried —
so the claimed identical handling fails. -/
theorem timeout_like_crash_refuted :
    runLoop 10 [WorkerOutcome.timeout] 0 0
        ≠ runLoop 10 [WorkerOutcome.crash ""] 0 0 ∧
    runLoop 10 [WorkerOutcome.timeout] 0 0 = RunResult.uncaughtTimeout 0 ∧
    runLoop 10 [WorkerOutcome.crash ""] 0 0 = RunResult.outOfTrace 0 1 := by
  decide

/-- Claim C4 (confirmed): with workers that always succeed and embed
every chunk they process, the orchestrator reaches the normal stopped
state, and the number of dispatch cycles it consumes is at most the
ceiling of total over BATCH_SIZE. -/
theorem orchestrator_terminates (total : Nat) :
    runLoop total (goodTrace total 0 ((total + 1999) / 2000)) 0 0
        = RunResult.stopped total ∧
    (goodTrace total 0 ((total + 1999) / 2000)).length
        ≤ (total + 1999) / 2000 := by
  constructor
  · apply goodTrace_drains
    · exact Nat.zero_le total
    · unfold BATCH_SIZE
      omega
  · exact goodTrace_length _ total 0

/-- Witness for orchestrator_terminates at a concrete count: 4500 chunks
drain in at most three batches of 2000. -/
theorem orchestrator_terminates_wit :
    runLoop 4500 (goodTrace 4500 0 ((4500 + 1999) / 2000)) 0 0
        = RunResult.stopped 4500 ∧
    (goodTrace 4500 0 ((4500 + 1999) / 2000)).length
        ≤ (4500 + 1999) / 2000 :=
  orchestrator_terminates 4500

/-- Claim C5 (amended): when every remaining chunk is permanently
unembeddable — each worker run selects a non-empty batch (processed not
zero) yet embeds nothing — the orchestrator does not terminate: done
never grows, no break fires, and after any number of such worker runs it
is still dispatching.  Stopped is reached only on a processed count of
zero. -/
theorem unembeddable_dispatches_forever (n total done k : Nat)
    (hd : done < total) (hk : k ≠ 0) :
    runLoop total (List.replicate n (WorkerOutcome.ok 0 k)) done 0
      = RunResult.outOfTrace done 0 :=
  unembeddable_never_stops k hk n total done hd

/-- Witness for unembeddable_dispatches_forever at a concrete state. -/
theorem unembeddable_dispatches_forever_wit :
    (0 < 10 ∧ (2000 : Nat) ≠ 0) ∧
    runLoop 10 (List.replicate 50 (WorkerOutcome.ok 0 2000)) 0 0
      = RunResult.outOfTrace 0 0 :=
  ⟨⟨by decide, by decide⟩,
    unembeddable_dispatches_forever 50 10 0 2000 (by decide) (by decide)⟩

/-- Claim C5 counterexample: with ten unembeddable chunks and fifty
consecutive worker runs each reporting processed 2000 and embedded 0, the
orchestrator has not transitioned to any terminal state — it is asking
for a fifty-first dispatch with no progress made — so the claimed
transition to Stopped does not happen. -/
theorem unembeddable_stop_refuted :
    runLoop 10 (List.replicate 50 (WorkerOutcome.ok 0 2000)) 0 0
        = RunResult.outOfTrace 0 0 ∧
    RunResult.outOfTrace 0 0 ≠ RunResult.stopped 0 := by
  decide

/-- Claim C6 (amended): given a worker that always crashes, the
orchestrator aborts after exactly six consecutive crashed attempts, not
five: the counter is incremented before the strict comparison with the
ceiling of 5, so attempts one to five redispatch and the sixth aborts.  A
successful batch resets the consecutive-crash counter to zero. -/
theorem crash_retry_ceiling (s : String) (total done e p retries : Nat)
    (rest : List WorkerOutcome) (hd : done < total) (hp : p ≠ 0) :
    runLoop total (List.replicate 5 (WorkerOutcome.crash s)) done 0
      = RunResult.outOfTrace done 5 ∧
    runLoop total (List.replicate 6 (WorkerOutcome.crash s) ++ rest) done 0
      = RunResult.abortedRetries done ∧
    runLoop total (WorkerOutcome.ok e p :: rest) done retries
      = runLoop total rest (done + e) 0 := by
  refine ⟨?_, ?_, ?_⟩
  · simp [runLoop, hd, List.replicate_succ]
  · simp [runLoop, hd, List.replicate_succ]
  · simp only [runLoop]
    rw [if_pos hd, if_neg hp]

/-- Witness for crash_retry_ceiling at a concrete state. -/
theorem crash_retry_ceiling_wit :
    (0 < 10 ∧ (3 : Nat) ≠ 0) ∧
    (runLoop 10 (List.replicate 5 (WorkerOutcome.crash "e")) 0 0
        = RunResult.outOfTrace 0 5 ∧
     runLoop 10 (List.replicate 6 (WorkerOutcome.crash "e") ++ []) 0 0
        = RunResult.abortedRetries 0 ∧
     runLoop 10 (WorkerOutcome.ok 2 3 :: []) 0 0 = runLoop 10 [] (0 + 2) 0) :=
  ⟨⟨by decide, by decide⟩,
    crash_retry_ceiling "e" 10 0 2 3 0 [] (by decide) (by decide)⟩

/-- Claim C6 counterexample: a worker that always crashes is dispatched a
sixth time — after five crashed attempts the orchestrator is still
retrying rather than aborted — so abort after exactly five consecutive
crashes is refuted; the sixth consecutive crash aborts. -/
theorem retry_ceiling_five_refuted :
    runLoop 10 (List.replicate 5 (WorkerOutcome.crash "")) 0 0
        = RunResult.outOfTrace 0 5 ∧
    runLoop 10 (List.replicate 6 (WorkerOutcome.crash "")) 0 0
        = RunResult.abortedRetries 0 := by
  decide

/- Worker lemmas. -/

theorem embedOutcome_some (embed : Text → Option (List Int)) (dim : Nat)
    (t : Text) (v : List Int) (h : embedOutcome embed dim t = some v) :
    embed (submitted t) = some v ∧ v.length = dim := by
  unfold embedOutcome at h
  cases he : embed (submitted t) with
  | none =>
    rw [he] at h
    simp at h
  | some u =>
    rw [he] at h
    by_cases hl : u.length = dim
    · simp [hl] at h
      subst h
      exact ⟨rfl, hl⟩
    · simp [hl] at h

theorem writeVector_other (db : List ChunkRow) (cid : Nat) (v : List Int)
    (c : ChunkRow) (hc : c ∈ db) (hne : c.id ≠ cid) :
    c ∈ writeVector db cid v := by
  have h2 := List.mem_map_of_mem
    (fun c => if c.id = cid then { c with vector := some v } else c) hc
  simpa [writeVector, hne] using h2

theorem selectUnembedded_subset (db : List ChunkRow) (limit : Nat) :
    ∀ r ∈ selectUnembedded db limit, r ∈ db := by
  intro r hr
  unfold selectUnembedded at hr
  exact List.mem_of_mem_filter (List.mem_of_mem_take hr)

theorem workerLoop_keeps (embed : Text → Option (List Int)) (dim : Nat)
    (c : ChunkRow) :
    ∀ (rows : List ChunkRow) (acc : List ChunkRow × Nat),
      (∀ r ∈ rows, r.id ≠ c.id ∨ embedOutcome embed dim r.text = none) →
      c ∈ acc.1 → c ∈ (workerLoop embed dim rows acc).1 := by
  intro rows
  induction rows with
  | nil =>
    intro acc _ hc
    simpa [workerLoop] using hc
  | cons r rest ih =>
    intro acc hr hc
    have hrest : ∀ q ∈ rest, q.id ≠ c.id ∨ embedOutcome embed dim q.text = none :=
      fun q hq => hr q (List.mem_cons_of_mem r hq)
    simp only [workerLoop]
    cases he : embedOutcome embed dim r.text with
    | none => exact ih acc hrest hc
    | some v =>
      rcases hr r (List.mem_cons_self r rest) with hne | hnone
      · exact ih _ hrest (writeVector_other acc.1 r.id v c hc (fun h => hne h.symm))
      · rw [hnone] at he
        exact absurd he (by simp)

theorem workerLoop_prov (embed : Text → Option (List Int)) (dim : Nat)
    (db : List ChunkRow) (hnd : (db.map ChunkRow.id).Nodup) :
    ∀ (rows : List ChunkRow) (acc : List ChunkRow × Nat),
      (∀ r ∈ rows, r ∈ db) →
      (∀ c' ∈ acc.1, rowProvenance embed dim db c') →
      ∀ c' ∈ (workerLoop embed dim rows acc).1, rowProvenance embed dim db c' := by
  intro rows
  induction rows with
  | nil =>
    intro acc _ hp
    simpa [workerLoop] using hp
  | cons r rest ih =>
    intro acc hr hp
    have hrest : ∀ q ∈ rest, q ∈ db := fun q hq => hr q (List.mem_cons_of_mem r hq)
    have hrdb : r ∈ db := hr r (List.mem_cons_self r rest)
    simp only [workerLoop]
    cases he : embedOutcome embed dim r.text with
    | none => exact ih acc hrest hp
    | some v =>
      apply ih _ hrest
      intro c'' hc''
      unfold writeVector at hc''
      rcases List.mem_map.mp hc'' with ⟨c', hc', heq⟩
      by_cases hid : c'.id = r.id
      · rw [if_pos hid] at heq
        rcases hp c' hc' with ⟨c0, hc0db, htext, hidc, hform⟩
        have hcr : c0 = r := by
          apply List.inj_on_of_nodup_map hnd hc0db hrdb
          rw [← hidc, hid]
        subst hcr
        have hev := embedOutcome_some embed dim c0.text v he
        have hfields : c'.rowid = c0.rowid ∧ c'.id = c0.id ∧
            c'.document_id = c0.document_id ∧ c'.text = c0.text := by
          rcases hform with h | ⟨w, hw, _⟩
          · simp [h]
          · simp [hw]
        have hupd : c'' = { c0 with vector := some v } := by
          rw [← heq, hfields.1, hfields.2.1, hfields.2.2.1, hfields.2.2.2]
        refine ⟨c0, hc0db, ?_, ?_, Or.inr ⟨v, hupd, hev.2, hev.1⟩⟩
        · rw [hupd]
        · rw [hupd]
      · rw [if_neg hid] at heq
        subst heq
        exact hp c' hc'

/-- Claim C7 (amended): the worker writes a vector only when its length
equals the model dimension exactly — a chunk row is never silently
truncated or padded, and on a mismatch the row is left unmutated — but
the mismatch is silent rather than reported: the worker still prints the
success payload (the chunk counted in processed, not in embedded) and
exits zero; the error payload exists only for a failed model load. -/
theorem dim_mismatch_skips (embed : Text → Option (List Int)) (dim : Nat)
    (db : List ChunkRow) (limit : Nat) (c c' : ChunkRow)
    (hnd : (db.map ChunkRow.id).Nodup) (hc : c ∈ db)
    (hm : embedOutcome embed dim c.text = none)
    (hc' : c' ∈ (workerMain true "" embed dim db limit).1) :
    c ∈ (workerMain true "" embed dim db limit).1 ∧
    (workerMain true "" embed dim db limit).2.isError = false ∧
    rowProvenance embed dim db c' := by
  have hsub := selectUnembedded_subset db limit
  refine ⟨?_, rfl, ?_⟩
  · show c ∈ (workerLoop embed dim (selectUnembedded db limit) (db, 0)).1
    apply workerLoop_keeps embed dim c _ _ _ hc
    intro r hr
    by_cases hid : r.id = c.id
    · right
      have : r = c := List.inj_on_of_nodup_map hnd (hsub r hr) hc hid
      rw [this]
      exact hm
    · exact Or.inl hid
  · apply workerLoop_prov embed dim db hnd (selectUnembedded db limit) (db, 0) hsub
    · intro d hd
      exact ⟨d, hd, rfl, rfl, Or.inl rfl⟩
    · exact hc'

/-- Witness for dim_mismatch_skips: one chunk, a capability returning a
three-long vector against dimension five. -/
theorem dim_mismatch_skips_wit :
    (([exChunk].map ChunkRow.id).Nodup ∧ exChunk ∈ [exChunk] ∧
      embedOutcome exBadEmbed 5 exChunk.text = none ∧
      exChunk ∈ (workerMain true "" exBadEmbed 5 [exChunk] 10).1) ∧
    (exChunk ∈ (workerMain true "" exBadEmbed 5 [exChunk] 10).1 ∧
     (workerMain true "" exBadEmbed 5 [exChunk] 10).2.isError = false ∧
     rowProvenance exBadEmbed 5 [exChunk] exChunk) :=
  ⟨⟨by decide, by decide, by decide, by decide⟩,
    dim_mismatch_skips exBadEmbed 5 [exChunk] 10 exChunk exChunk
      (by decide) (by decide) (by decide) (by decide)⟩

/-- Claim C7 counterexample: with one existing chunk and a capability
whose vector length disagrees with the dimension, the write is skipped
and the row unmutated, but no error is reported — the worker prints the
success payload with embedded zero and processed one — refuting the
claimed reported-as-error behaviour. -/
theorem dim_mismatch_error_refuted :
    (workerMain true "" exBadEmbed 5 [exChunk] 10).2 = WorkerReport.ok 0 1 ∧
    (workerMain true "" exBadEmbed 5 [exChunk] 10).2.isError = false ∧
    (workerMain true "" exBadEmbed 5 [exChunk] 10).1 = [exChunk] := by
  decide

/-- Claim C9 (confirmed): the worker submits text[:512] to the embedding
capability, a string of at most 512 characters, so for any two chunk
texts agreeing on their first 512 characters the submitted string and the
resulting guarded vector are identical — the stored vector never depends
on text beyond position 512. -/
theorem embed_reads_first_512 (embed : Text → Option (List Int)) (dim : Nat)
    (t1 t2 : Text) (h : t1.take 512 = t2.take 512) :
    (submitted t1).length ≤ 512 ∧
    submitted t1 = submitted t2 ∧
    embedOutcome embed dim t1 = embedOutcome embed dim t2 := by
  refine ⟨?_, h, ?_⟩
  · unfold submitted
    rw [List.length_take]
    omega
  · unfold embedOutcome submitted
    rw [h]

/-- Witness for embed_reads_first_512: texts of 513 characters differing
only at the last one. -/
theorem embed_reads_first_512_wit :
    exText1.take 512 = exText2.take 512 ∧
    ((submitted exText1).length ≤ 512 ∧
     submitted exText1 = submitted exText2 ∧
     embedOutcome exEmbed 2 exText1 = embedOutcome exEmbed 2 exText2) :=
  ⟨by decide, embed_reads_first_512 exEmbed 2 exText1 exText2 (by decide)⟩

/- Store lemmas. -/

theorem insertChunkStep_ok (kb : KB) (docId : Nat) (t : Text)
    (h1 : ftsConsistent kb) (h2 : rowidsOk kb) :
    ftsConsistent (insertChunksKB kb docId [t]) ∧
    rowidsOk (insertChunksKB kb docId [t]) := by
  constructor
  · unfold ftsConsistent insertChunksKB
    simp only [List.foldl_cons, List.foldl_nil]
    unfold ftsConsistent at h1
    simp [h1, ftsEntry]
  · unfold rowidsOk insertChunksKB
    simp only [List.foldl_cons, List.foldl_nil]
    constructor
    · simp only [List.map_append]
      rw [List.nodup_append]
      refine ⟨h2.1, by simp, ?_⟩
      intro a ha hb
      simp at hb
      subst hb
      rcases List.mem_map.mp ha with ⟨c, hc, hcr⟩
      have := h2.2 c hc
      omega
    · intro c hc
      rcases List.mem_append.mp hc with h | h
      · have := h2.2 c h
        omega
      · have he : c = ⟨kb.nextRowid, kb.nextRowid, docId, t, none⟩ :=
          List.mem_singleton.mp h
        subst he
        simp

theorem insertChunksKB_ok (docId : Nat) :
    ∀ (texts : List Text) (kb : KB), ftsConsistent kb → rowidsOk kb →
      ftsConsistent (insertChunksKB kb docId texts) ∧
      rowidsOk (insertChunksKB kb docId texts) := by
  intro texts
  induction texts with
  | nil =>
    intro kb h1 h2
    exact ⟨h1, h2⟩
  | cons t rest ih =>
    intro kb h1 h2
    have heq : insertChunksKB kb docId (t :: rest)
        = insertChunksKB (insertChunksKB kb docId [t]) docId rest := rfl
    rw [heq]
    have hs := insertChunkStep_ok kb docId t h1 h2
    exact ih _ hs.1 hs.2

theorem deleteDocKB_consistent (kb : KB) (docId : Nat)
    (h1 : ftsConsistent kb) (h2 : rowidsOk kb) :
    ftsConsistent (deleteDocKB kb docId) ∧ rowidsOk (deleteDocKB kb docId) := by
  have hinj := List.inj_on_of_nodup_map h2.1
  constructor
  · unfold ftsConsistent deleteDocKB
    simp only
    rw [h1, List.filter_map]
    congr 1
    apply List.filter_congr
    intro c hc
    simp only [Function.comp, ftsEntry]
    cases hdoc : (c.document_id == docId) with
    | true =>
      have hmem : c ∈ kb.chunks.filter (fun c0 => c0.document_id == docId) :=
        List.mem_filter.mpr ⟨hc, hdoc⟩
      have hany : (kb.chunks.filter
          (fun c0 => c0.document_id == docId)).any
            (fun c0 => c0.rowid == c.rowid) = true :=
        List.any_eq_true.mpr ⟨c, hmem, by simp⟩
      rw [hany]
    | false =>
      have hany : (kb.chunks.filter
          (fun c0 => c0.document_id == docId)).any
            (fun c0 => c0.rowid == c.rowid) = false := by
        rw [List.any_eq_false]
        intro c0 hc0
        have hc0c : c0 ∈ kb.chunks := (List.mem_filter.mp hc0).1
        have hc0d : (c0.document_id == docId) = true := (List.mem_filter.mp hc0).2
        cases hrow : (c0.rowid == c.rowid) with
        | false => simp
        | true =>
          have : c0 = c := hinj hc0c hc (beq_iff_eq.mp hrow)
          subst this
          rw [hc0d] at hdoc
          cases hdoc
      rw [hany]
  · unfold rowidsOk deleteDocKB
    simp only
    constructor
    · exact h2.1.sublist ((List.filter_sublist kb.chunks).map ChunkRow.rowid)
    · intro c hc
      exact h2.2 c (List.mem_of_mem_filter hc)

/-- Claim C8 (confirmed): under the schema of init_db the full-text index
stays in one-to-one correspondence with the chunk rows across store
operations — a committed document insert keeps the triggers and the index
in lockstep, and deleting a document cascades to all its chunks and their
index entries in the same transaction: afterwards no chunk of the
document remains, no index entry of a removed chunk remains, and every
surviving index entry still mirrors a surviving chunk row. -/
theorem cascade_integrity (kb : KB) (doc : DocRow) (texts : List Text)
    (docId : Nat) (c : ChunkRow) (f : FtsRow)
    (hc : ftsConsistent kb) (hr : rowidsOk kb)
    (hcm : c ∈ kb.chunks) (hcd : c.document_id = docId)
    (hfm : f ∈ (deleteDocKB kb docId).fts) :
    (ftsConsistent (insertDocKB kb doc texts) ∧
      rowidsOk (insertDocKB kb doc texts)) ∧
    (ftsConsistent (deleteDocKB kb docId) ∧ rowidsOk (deleteDocKB kb docId)) ∧
    (deleteDocKB kb docId).chunks.filter (fun c0 => c0.document_id == docId)
        = [] ∧
    f.rowid ≠ c.rowid ∧
    ∃ c1 ∈ (deleteDocKB kb docId).chunks, c1.rowid = f.rowid ∧
      c1.text = f.text := by
  have hdel := deleteDocKB_consistent kb docId hc hr
  have hinj := List.inj_on_of_nodup_map hr.1
  have hch : (deleteDocKB kb docId).chunks
      = kb.chunks.filter (fun c0 => !(c0.document_id == docId)) := rfl
  have hfm2 : f ∈ ((deleteDocKB kb docId).chunks.map ftsEntry) := by
    rw [← hdel.1]
    exact hfm
  rcases List.mem_map.mp hfm2 with ⟨c1, hc1, hc1f⟩
  have hc1' := hc1
  rw [hch] at hc1'
  have hc1chunks : c1 ∈ kb.chunks := (List.mem_filter.mp hc1').1
  have hc1keep : (!(c1.document_id == docId)) = true := (List.mem_filter.mp hc1').2
  refine ⟨?_, hdel, ?_, ?_, ⟨c1, hc1, ?_, ?_⟩⟩
  · exact insertChunksKB_ok doc.id texts _ hc hr
  · rw [List.filter_eq_nil_iff]
    intro c0 hc0
    rw [hch] at hc0
    have h5 := (List.mem_filter.mp hc0).2
    simp at h5
    simp [h5]
  · intro hrow
    have hc1c : c1 = c := by
      apply hinj hc1chunks hcm
      rw [← hc1f] at hrow
      exact hrow
    subst hc1c
    simp [hcd] at hc1keep
  · rw [← hc1f]
    rfl
  · rw [← hc1f]
    rfl

/-- Witness for cascade_integrity: a concrete store of two one-chunk
documents, deleting document 1. -/
theorem cascade_integrity_wit :
    (ftsConsistent exKB ∧ rowidsOk exKB ∧ exKBChunk ∈ exKB.chunks ∧
      exKBChunk.document_id = 1 ∧ exKBFts ∈ (deleteDocKB exKB 1).fts) ∧
    ((ftsConsistent (insertDocKB exKB ⟨3, "c.md", "file", none⟩ ["three".data]) ∧
      rowidsOk (insertDocKB exKB ⟨3, "c.md", "file", none⟩ ["three".data])) ∧
     (ftsConsistent (deleteDocKB exKB 1) ∧ rowidsOk (deleteDocKB exKB 1)) ∧
     (deleteDocKB exKB 1).chunks.filter (fun c0 => c0.document_id == 1) = [] ∧
     exKBFts.rowid ≠ exKBChunk.rowid ∧
     ∃ c1 ∈ (deleteDocKB exKB 1).chunks, c1.rowid = exKBFts.rowid ∧
       c1.text = exKBFts.text) :=
  ⟨⟨by decide, by decide, by decide, by decide, by decide⟩,
    cascade_integrity exKB ⟨3, "c.md", "file", none⟩ ["three".data] 1
      exKBChunk exKBFts (by decide) (by decide) (by decide) (by decide)
      (by decide)⟩

/- Importer lemmas. -/

theorem aiFold_length : ∀ (l : List Conv) (acc : List DocRow × Nat),
    ((l.foldl aiStep acc).1).length
      = acc.1.length
        + (l.filter (fun c => !(chunk_text (convTranscript c)).isEmpty)).length := by
  intro l
  induction l with
  | nil =>
    intro acc
    simp
  | cons conv rest ih =>
    intro acc
    rw [List.foldl_cons, ih]
    unfold aiStep
    by_cases hch : (chunk_text (convTranscript conv)).isEmpty = true
    · rw [if_pos hch]
      simp [List.filter_cons, hch]
    · rw [if_neg hch]
      simp only [List.filter_cons]
      simp [hch]
      omega

theorem aiFold_mem : ∀ (l : List Conv) (acc : List DocRow × Nat) (d : DocRow),
    d ∈ (l.foldl aiStep acc).1 → d ∈ acc.1 ∨ d.source_path = none := by
  intro l
  induction l with
  | nil =>
    intro acc d hd
    exact Or.inl hd
  | cons conv rest ih =>
    intro acc d hd
    rw [List.foldl_cons] at hd
    unfold aiStep at hd
    by_cases hch : (chunk_text (convTranscript conv)).isEmpty = true
    · rw [if_pos hch] at hd
      exact ih acc d hd
    · rw [if_neg hch] at hd
      rcases ih _ d hd with h | h
      · rcases List.mem_append.mp h with h2 | h2
        · exact Or.inl h2
        · right
          rw [List.mem_singleton.mp h2]
      · exact Or.inr h

theorem aiFold_paths : ∀ (l : List Conv) (acc : List DocRow × Nat),
    existingSourcePaths (l.foldl aiStep acc).1 = existingSourcePaths acc.1 := by
  intro l
  induction l with
  | nil =>
    intro acc
    rfl
  | cons conv rest ih =>
    intro acc
    rw [List.foldl_cons, ih]
    unfold aiStep
    by_cases hch : (chunk_text (convTranscript conv)).isEmpty = true
    · rw [if_pos hch]
    · rw [if_neg hch]
      unfold existingSourcePaths
      simp

/-- Claim C10 (confirmed): every document the Claude.ai importer creates
records no source path at all, so the source-path dedup can never match
it: one run grows the store by the count of eligible non-empty
conversations without adding any dedup key, and a second run over the
same export grows it by the same count again — a second document per
eligible conversation. -/
theorem claude_ai_no_dedup (db : List DocRow) (n : Nat) (convs : List Conv)
    (d : DocRow) (hd : d ∈ (importClaudeAI db n convs).1) :
    (d ∈ db ∨ d.source_path = none) ∧
    (importClaudeAI db n convs).1.length = db.length + importedAiCount convs ∧
    existingSourcePaths (importClaudeAI db n convs).1
        = existingSourcePaths db ∧
    (importClaudeAI (importClaudeAI db n convs).1
        (importClaudeAI db n convs).2 convs).1.length
      = db.length + 2 * importedAiCount convs := by
  unfold importClaudeAI at *
  refine ⟨aiFold_mem _ _ d hd, aiFold_length _ _, aiFold_paths _ _, ?_⟩
  rw [aiFold_length, aiFold_length]
  rw [show ((db, n) : List DocRow × Nat).1 = db from rfl]
  unfold importedAiCount
  omega

/-- Witness for claude_ai_no_dedup: importing one eligible conversation
into an empty store, twice. -/
theorem claude_ai_no_dedup_wit :
    exAiDoc ∈ (importClaudeAI [] 0 [exConv]).1 ∧
    ((exAiDoc ∈ ([] : List DocRow) ∨ exAiDoc.source_path = none) ∧
     (importClaudeAI [] 0 [exConv]).1.length
        = ([] : List DocRow).length + importedAiCount [exConv] ∧
     existingSourcePaths (importClaudeAI [] 0 [exConv]).1
        = existingSourcePaths [] ∧
     (importClaudeAI (importClaudeAI [] 0 [exConv]).1
        (importClaudeAI [] 0 [exConv]).2 [exConv]).1.length
        = ([] : List DocRow).length + 2 * importedAiCount [exConv]) :=
  ⟨by decide, claude_ai_no_dedup [] 0 [exConv] exAiDoc (by decide)⟩

theorem ccFold_noop : ∀ (l : List CCFile) (acc : List DocRow × Nat),
    (∀ f ∈ l, ccImportable f = false) → l.foldl ccStep acc = acc := by
  intro l
  induction l with
  | nil =>
    intro acc _
    rfl
  | cons g rest ih =>
    intro acc hl
    rw [List.foldl_cons]
    have hg : ccImportable g = false := hl g (List.mem_cons_self g rest)
    have hstep : ccStep acc g = acc := by
      unfold ccStep
      rw [hg]
      simp
    rw [hstep]
    exact ih acc (fun f hf => hl f (List.mem_cons_of_mem g hf))

theorem ccFold_paths_mono : ∀ (l : List CCFile) (acc : List DocRow × Nat)
    (p : String), p ∈ existingSourcePaths acc.1 →
    p ∈ existingSourcePaths (l.foldl ccStep acc).1 := by
  intro l
  induction l with
  | nil =>
    intro acc p hp
    exact hp
  | cons g rest ih =>
    intro acc p hp
    rw [List.foldl_cons]
    apply ih
    unfold ccStep
    by_cases hg : ccImportable g = true
    · rw [if_pos hg]
      unfold existingSourcePaths at *
      rw [List.filterMap_append]
      exact List.mem_append.mpr (Or.inl hp)
    · rw [if_neg hg]
      exact hp

theorem ccFold_imported_path : ∀ (l : List CCFile) (acc : List DocRow × Nat)
    (f : CCFile), f ∈ l → ccImportable f = true →
    f.path ∈ existingSourcePaths (l.foldl ccStep acc).1 := by
  intro l
  induction l with
  | nil =>
    intro acc f hf
    cases hf
  | cons g rest ih =>
    intro acc f hf himp
    rw [List.foldl_cons]
    rcases List.mem_cons.mp hf with he | hf2
    · subst he
      apply ccFold_paths_mono
      unfold ccStep
      rw [if_pos himp]
      unfold existingSourcePaths
      rw [List.filterMap_append]
      apply List.mem_append.mpr
      right
      simp
    · exact ih _ f hf2 himp

theorem countPath_append_one (dbl : List DocRow) (i : Nat) (nm st : String)
    (q p : String) :
    countPath (dbl ++ [⟨i, nm, st, some q⟩]) p
      = countPath dbl p + (if q = p then 1 else 0) := by
  unfold countPath
  rw [List.filter_append, List.length_append]
  congr 1
  by_cases h : q = p
  · subst h
    simp
  · simp [h]

theorem ccFold_count : ∀ (l : List CCFile) (acc : List DocRow × Nat)
    (p : String), countPath (l.foldl ccStep acc).1 p
      = countPath acc.1 p
        + (l.filter (fun f => ccImportable f && f.path == p)).length := by
  intro l
  induction l with
  | nil =>
    intro acc p
    simp
  | cons g rest ih =>
    intro acc p
    rw [List.foldl_cons, ih]
    unfold ccStep
    by_cases hg : ccImportable g = true
    · rw [if_pos hg]
      rw [countPath_append_one]
      simp only [List.filter_cons, hg, Bool.true_and]
      by_cases hp : g.path = p
      · simp [hp]
        omega
      · have : (g.path == p) = false := by
          simp [hp]
        simp [this, hp]
    · rw [if_neg hg]
      have : (ccImportable g && (g.path == p)) = false := by
        simp [hg]
      simp [List.filter_cons, this]

theorem filter_length_one : ∀ (l : List CCFile),
    (l.map CCFile.path).Nodup →
    ∀ (q : CCFile → Bool) (p : String), (∀ g, q g = true → g.path = p) →
    ∀ f ∈ l, q f = true → (l.filter q).length = 1 := by
  intro l
  induction l with
  | nil =>
    intro _ q p _ f hf
    cases hf
  | cons g rest ih =>
    intro hnd q p hq f hf hqf
    rw [List.map_cons, List.nodup_cons] at hnd
    cases hqg : q g with
    | true =>
      have hrest : rest.filter q = [] := by
        rw [List.filter_eq_nil_iff]
        intro a ha hqa
        apply hnd.1
        have : a.path = g.path := by
          rw [hq a hqa, hq g hqg]
        rw [← this]
        exact List.mem_map_of_mem CCFile.path ha
      simp [List.filter_cons, hqg, hrest]
    | false =>
      have hfg : f ≠ g := by
        intro he
        rw [he, hqg] at hqf
        cases hqf
      have hf2 : f ∈ rest := by
        rcases List.mem_cons.mp hf with he | h
        · exact absurd he hfg
        · exact h
      simp only [List.filter_cons, hqg]
      simp
      exact ih hnd.2 q p hq f hf2 hqf

theorem contains_false_not_mem {α : Type} [BEq α] [LawfulBEq α]
    (l : List α) (a : α) (h : l.contains a = false) : a ∉ l := by
  intro hmem
  have h2 : l.contains a = true := List.elem_iff.mpr hmem
  rw [h] at h2
  exact Bool.false_ne_true h2

theorem countPath_zero_not_mem (db : List DocRow) (p : String)
    (h : countPath db p = 0) : p ∉ existingSourcePaths db := by
  intro hmem
  unfold existingSourcePaths at hmem
  rcases List.mem_filterMap.mp hmem with ⟨d, hd, hdp⟩
  unfold countPath at h
  rw [List.length_eq_zero] at h
  have hmem2 : d ∈ db.filter (fun d => d.source_path == some p) :=
    List.mem_filter.mpr ⟨hd, by rw [hdp]; simp⟩
  rw [h] at hmem2
  cases hmem2

/-- Claim C2 (amended): the source-path dedup holds for the Claude Code
bulk importer — importing the same files twice leaves the store unchanged
on the second run, and an imported path is recorded in exactly one
document — but not for the single-file entry point, which records
source_path without ever consulting it (see the counterexample). -/
theorem cc_import_dedup (db : List DocRow) (n m : Nat) (files : List CCFile)
    (f : CCFile) (p : String)
    (hnd : (files.map CCFile.path).Nodup) (h0 : countPath db p = 0)
    (hf : f ∈ files) (hp : f.path = p) (himp : ccImportable f = true) :
    importClaudeCode (importClaudeCode db n files).1 m files
        = ((importClaudeCode db n files).1, m) ∧
    countPath (importClaudeCode db n files).1 p = 1 := by
  constructor
  · unfold importClaudeCode
    apply ccFold_noop
    intro g hg
    rcases List.mem_filter.mp hg with ⟨hgf, hgcond⟩
    rw [Bool.not_eq_true'] at hgcond
    cases hgi : ccImportable g with
    | false => rfl
    | true =>
      exfalso
      have hgin : g.path ∈ existingSourcePaths
          ((files.filter
            (fun f0 => !((existingSourcePaths db).contains f0.path))).foldl
              ccStep (db, n)).1 := by
        by_cases hq : g.path ∈ existingSourcePaths db
        · exact ccFold_paths_mono _ (db, n) g.path hq
        · have hgfil : g ∈ files.filter
              (fun f0 => !((existingSourcePaths db).contains f0.path)) := by
            apply List.mem_filter.mpr
            refine ⟨hgf, ?_⟩
            cases hcon : (existingSourcePaths db).contains g.path with
            | false => rfl
            | true => exact absurd (List.elem_iff.mp hcon) hq
          exact ccFold_imported_path _ (db, n) g hgfil hgi
      exact contains_false_not_mem _ _ hgcond hgin
  · unfold importClaudeCode
    rw [ccFold_count]
    have hc0 : countPath ((db, n) : List DocRow × Nat).1 p = 0 := h0
    rw [hc0]
    rw [Nat.zero_add]
    apply filter_length_one
    · exact hnd.sublist ((List.filter_sublist files).map CCFile.path)
    · intro g hg
      exact beq_iff_eq.mp (Bool.and_elim_right hg)
    · apply List.mem_filter.mpr
      refine ⟨hf, ?_⟩
      have hnot : p ∉ existingSourcePaths db := countPath_zero_not_mem db p h0
      cases hcon : (existingSourcePaths db).contains f.path with
      | false => rfl
      | true =>
        exfalso
        apply hnot
        rw [← hp]
        exact List.elem_iff.mp hcon
    · rw [himp, Bool.true_and]
      exact beq_iff_eq.mpr hp

/-- Witness for cc_import_dedup: one importable transcript file imported
twice into an empty store. -/
theorem cc_import_dedup_wit :
    ((([exCCFile].map CCFile.path).Nodup ∧ countPath [] "p.jsonl" = 0 ∧
      exCCFile ∈ [exCCFile] ∧ exCCFile.path = "p.jsonl" ∧
      ccImportable exCCFile = true)) ∧
    (importClaudeCode (importClaudeCode [] 0 [exCCFile]).1 7 [exCCFile]
        = ((importClaudeCode [] 0 [exCCFile]).1, 7) ∧
     countPath (importClaudeCode [] 0 [exCCFile]).1 "p.jsonl" = 1) :=
  ⟨⟨by decide, by decide, by decide, by decide, by decide⟩,
    cc_import_dedup [] 0 7 [exCCFile] exCCFile "p.jsonl"
      (by decide) (by decide) (by decide) (by decide) (by decide)⟩

/-- Claim C2 counterexample: importing the same path twice through the
single-file entry point inserts two documents recording that path — the
first run leaves one document with source_path doc.md, the second run
inserts another instead of skipping, so the claimed exactly-one outcome
fails for the single-file importer. -/
theorem import_file_dedup_refuted :
    countPath (importFile [] 0 "doc.md" exContent).1 "doc.md" = 1 ∧
    countPath (importFile (importFile [] 0 "doc.md" exContent).1
        (importFile [] 0 "doc.md" exContent).2 "doc.md" exContent).1
        "doc.md" = 2 := by
  decide

end Tinker
